import Mathlib

/-!
Shallow embedding of the prompta prompt/version service core
(src/prompta-api/prompts/services.py and models.py) together with the
route-level auth threading (src/prompta-app/prompts/routes.py).

Modelling conventions:
* UUID primary keys are modelled as natural numbers drawn from a fresh-id
  counter `DB.nextId`; `datetime.utcnow` timestamps are taken from the same
  counter (no claim under study compares clock values across operations).
* The SQLAlchemy session is the explicit `DB` record. A service call that
  commits returns the updated `DB`; a call that raises `ValueError` before
  any insert returns `Except.error` and the caller keeps its old `DB`
  (the route layer maps the exception and the transaction is rolled back).
* Python truthiness of `Optional[str]` values (`if s:`, `s or default`) is
  modelled by `strTruthy` / `pyOrElse`, which treat both `None` and the
  empty string as falsy.
* The external diff library (difflib) and the Python line splitter are not
  part of this repository; they are modelled from the spec (see the
  `Modelled from the spec:` doc comments below).
-/

/-- User id supplied by the auth layer (external collaborator). -/
abbrev UserId := Nat

/-- Row of the `projects` table (models.Project); timestamps as counter ticks. -/
structure ProjectRec where
  id : Nat
  user_id : UserId
  name : String
  description : Option String
  tags : List String
  is_active : Bool
  is_public : Bool
  updated_at : Nat
deriving Repr, DecidableEq

/-- Row of the `prompts` table (models.Prompt). `current_version_id` is the
weak pointer column (no foreign key constraint in the source). -/
structure PromptRec where
  id : Nat
  user_id : UserId
  project_id : Option Nat
  name : String
  description : Option String
  location : String
  tags : List String
  is_public : Bool
  updated_at : Nat
  current_version_id : Option Nat
deriving Repr, DecidableEq

/-- Row of the `prompt_versions` table (models.PromptVersion). -/
structure VersionRec where
  id : Nat
  prompt_id : Nat
  version_number : Nat
  content : String
  commit_message : Option String
  created_at : Nat
  is_current : Bool
deriving Repr, DecidableEq

/-- The database session state: the three tables plus the fresh-id counter
standing in for UUID generation and the clock. -/
structure DB where
  projects : List ProjectRec
  prompts : List PromptRec
  versions : List VersionRec
  nextId : Nat
deriving Repr, DecidableEq

/-- The empty store. -/
def emptyDB : DB := { projects := [], prompts := [], versions := [], nextId := 0 }

/-- schemas.PromptCreate: the request body of prompt creation. -/
structure PromptCreate where
  name : String
  description : Option String
  location : String
  tags : List String
  project_id : Option Nat
  content : String
  commit_message : Option String
  is_public : Bool
deriving Repr, DecidableEq

/-- schemas.PromptVersionCreate. -/
structure PromptVersionCreate where
  content : String
  commit_message : Option String
deriving Repr, DecidableEq

/-- schemas.PromptUpdate: all fields optional, `None` meaning "leave as is". -/
structure PromptUpdate where
  name : Option String
  description : Option String
  location : Option String
  project_id : Option Nat
  tags : Option (List String)
  is_public : Option Bool
deriving Repr, DecidableEq

/-- schemas.PromptSearchParams as built by routes.list_prompts. -/
structure PromptSearchParams where
  query : Option String
  tags : Option (List String)
  location : Option String
  project_id : Option Nat
  project_name : Option String
  page : Nat
  page_size : Nat
deriving Repr, DecidableEq

/-- The search params of a plain list call (route defaults). -/
def defaultSearchParams : PromptSearchParams :=
  { query := none, tags := none, location := none, project_id := none,
    project_name := none, page := 1, page_size := 20 }

/-- schemas.PromptDownloadParams as built by routes.download_prompts. -/
structure PromptDownloadParams where
  project_name : Option String
  directory : Option String
  tags : Option (List String)
  include_content : Bool
deriving Repr, DecidableEq

/-- The download params of a plain download call (route defaults). -/
def defaultDownloadParams : PromptDownloadParams :=
  { project_name := none, directory := none, tags := none, include_content := true }

/-- Python `x or default` on an optional string: `None` and `""` are falsy. -/
def pyOrElse (x : Option String) (dflt : String) : String :=
  match x with
  | none => dflt
  | some s => if s = "" then dflt else s

/-- Python truthiness of an optional string (`if s:`). -/
def strTruthy (x : Option String) : Bool :=
  match x with
  | none => false
  | some s => !(s == "")

/-- Contiguous-subsequence test used to model SQL pattern containment. -/
def containsSeq [DecidableEq α] (sub : List α) : List α → Bool
  | [] => sub.isEmpty
  | x :: xs => sub.isPrefixOf (x :: xs) || containsSeq sub xs

/-- SQL `col ILIKE '%term%'`: case-insensitive substring test (wildcard
characters inside the term itself are not modelled; no claim uses them). -/
def ilikeContains (term s : String) : Bool :=
  containsSeq term.toLower.data s.toLower.data

namespace ProjectService

/-- services.ProjectService.get_project_by_id: a project by id, scoped to the
requesting user. -/
def get_project_by_id (db : DB) (user : UserId) (project_id : Nat) :
    Option ProjectRec :=
  db.projects.find? (fun pr => pr.id == project_id && pr.user_id == user)

end ProjectService

namespace PromptService

/-- services.PromptService.get_prompt_public_or_private: lookup by id alone,
then admit if public, else admit only the owner. The auth mode (API key
versus session token) is not an input of this function. -/
def get_prompt_public_or_private (db : DB) (prompt_id : Nat)
    (user : Option UserId) : Option PromptRec :=
  match db.prompts.find? (fun p => p.id == prompt_id) with
  | none => none
  | some p =>
    if p.is_public then some p
    else
      match user with
      | some u => if p.user_id == u then some p else none
      | none => none

/-- Message of the duplicate-name ValueError of create_prompt and
update_prompt (the quotes of the Python f-string are omitted). -/
def promptExistsMsg (name : String) : String :=
  s!"Prompt with name {name} already exists"

/-- Message of the unknown-project ValueError of create_prompt and
update_prompt (quotes omitted). -/
def projectNotFoundMsg (project_id : Nat) : String :=
  s!"Project with ID {project_id} not found"

/-- The prompt row inserted by create_prompt, current_version_id already set
to the initial version's id (the source sets it before the commit). -/
def newPromptRow (db : DB) (user : UserId) (d : PromptCreate) : PromptRec :=
  { id := db.nextId, user_id := user, project_id := d.project_id,
    name := d.name, description := d.description, location := d.location,
    tags := d.tags, is_public := d.is_public, updated_at := db.nextId,
    current_version_id := some (db.nextId + 1) }

/-- The initial version row of create_prompt: number 1, is_current, message
defaulting to "Initial version". -/
def initialVersionRow (db : DB) (d : PromptCreate) : VersionRec :=
  { id := db.nextId + 1, prompt_id := db.nextId, version_number := 1,
    content := d.content,
    commit_message := some (pyOrElse d.commit_message "Initial version"),
    created_at := db.nextId, is_current := true }

/-- Insert branch of create_prompt, reached after both validation steps: the
prompt row, its initial version and the current-version pointer are committed
together. -/
def create_prompt_go (db : DB) (user : UserId) (d : PromptCreate) :
    PromptRec × DB :=
  (newPromptRow db user d,
    { db with
      prompts := db.prompts ++ [newPromptRow db user d]
      versions := db.versions ++ [initialVersionRow db d]
      nextId := db.nextId + 2 })

/-- services.PromptService.create_prompt: duplicate-name check, then project
check, both raising before any insert; then the atomic insert branch. -/
def create_prompt (db : DB) (user : UserId) (d : PromptCreate) :
    Except String (PromptRec × DB) :=
  if (db.prompts.find? (fun p => p.user_id == user && p.name == d.name)).isSome then
    .error (promptExistsMsg d.name)
  else
    match d.project_id with
    | some pj =>
      if (ProjectService.get_project_by_id db user pj).isSome then
        .ok (create_prompt_go db user d)
      else
        .error (projectNotFoundMsg pj)
    | none => .ok (create_prompt_go db user d)

/-- State reached by a create_prompt call: errors raise before any insert, so
the session is unchanged. -/
def create_prompt_db (db : DB) (user : UserId) (d : PromptCreate) : DB :=
  match create_prompt db user d with
  | .ok x => x.2
  | .error _ => db

/-- services.PromptService.get_prompt_by_id: owner-scoped lookup by id. -/
def get_prompt_by_id (db : DB) (user : UserId) (prompt_id : Nat) :
    Option PromptRec :=
  db.prompts.find? (fun p => p.id == prompt_id && p.user_id == user)

/-- The three-branch visibility filter repeated verbatim in list_prompts,
search_prompts_by_content, get_prompt_by_location and download_prompts:
`user and include_private` admits public or own, `user` alone admits own
only, anonymous admits public only. -/
def visibilityFilter (user : Option UserId) (include_private : Bool)
    (p : PromptRec) : Bool :=
  match user with
  | some u =>
    if include_private then p.is_public || p.user_id == u else p.user_id == u
  | none => p.is_public

/-- Filter pipeline of services.PromptService.list_prompts before ordering and
pagination (the query whose count the service returns as `total`). The tags
filter is disabled in the source (TODO / PostgreSQL compatibility). -/
def list_prompts_query (db : DB) (user : Option UserId)
    (sp : PromptSearchParams) (include_private : Bool) : List PromptRec :=
  let q := db.prompts.filter (visibilityFilter user include_private)
  let q :=
    if strTruthy sp.query then
      q.filter (fun p =>
        ilikeContains (sp.query.getD "") p.name ||
        (match p.description with
         | some dsc => ilikeContains (sp.query.getD "") dsc
         | none => false) ||
        ilikeContains (sp.query.getD "") p.location)
    else q
  let q :=
    if strTruthy sp.location then
      q.filter (fun p => ilikeContains (sp.location.getD "") p.location)
    else q
  let q :=
    match sp.project_id with
    | some pj => q.filter (fun p => p.project_id == some pj)
    | none => q
  let q :=
    if strTruthy sp.project_name then
      q.filter (fun p =>
        (db.projects.find? (fun pr =>
          some pr.id == p.project_id && pr.name == sp.project_name.getD "")).isSome)
    else q
  q

/-- ORDER BY updated_at DESC. -/
def updatedDesc (p q : PromptRec) : Prop := q.updated_at ≤ p.updated_at

instance : DecidableRel updatedDesc := fun p q =>
  inferInstanceAs (Decidable (q.updated_at ≤ p.updated_at))

/-- services.PromptService.list_prompts: visibility filter, search filters,
count, ORDER BY updated_at DESC, OFFSET/LIMIT pagination. -/
def list_prompts (db : DB) (user : Option UserId) (sp : PromptSearchParams)
    (include_private : Bool) : List PromptRec × Nat :=
  let q := list_prompts_query db user sp include_private
  let sorted := List.insertionSort updatedDesc q
  ((sorted.drop ((sp.page - 1) * sp.page_size)).take sp.page_size, q.length)

/-- The field assignments of update_prompt: each non-None field of the
request is written to the row; id, user_id and current_version_id are never
touched; updated_at refreshes (onupdate). -/
def applyPromptUpdate (db : DB) (d : PromptUpdate) (p : PromptRec) :
    PromptRec :=
  { p with
    name := d.name.getD p.name,
    description := match d.description with
      | some x => some x
      | none => p.description,
    location := d.location.getD p.location,
    project_id := match d.project_id with
      | some x => some x
      | none => p.project_id,
    tags := d.tags.getD p.tags,
    is_public := d.is_public.getD p.is_public,
    updated_at := db.nextId }

/-- services.PromptService.update_prompt: not-found returns None; name
conflict and unknown project raise before any assignment (state unchanged);
otherwise the non-None fields are written to the row and committed. The
second component is the session state after the call. -/
def update_prompt (db : DB) (user : UserId) (prompt_id : Nat)
    (d : PromptUpdate) : Except String (Option PromptRec) × DB :=
  match get_prompt_by_id db user prompt_id with
  | none => (.ok none, db)
  | some prompt =>
    if strTruthy d.name && !(d.name.getD "" == prompt.name) &&
        (db.prompts.find? (fun p =>
          p.user_id == user && p.name == d.name.getD "" &&
          !(p.id == prompt_id))).isSome then
      (.error (promptExistsMsg (d.name.getD "")), db)
    else if (match d.project_id with
             | some pj => (ProjectService.get_project_by_id db user pj).isNone
             | none => false) then
      (.error (projectNotFoundMsg (d.project_id.getD 0)), db)
    else
      (.ok (some (applyPromptUpdate db d prompt)),
        { db with prompts := db.prompts.map (fun p =>
            if p.id == prompt_id then applyPromptUpdate db d p else p) })

/-- State reached by an update_prompt call (errors raise before any write). -/
def update_prompt_db (db : DB) (user : UserId) (prompt_id : Nat)
    (d : PromptUpdate) : DB :=
  (update_prompt db user prompt_id d).2

/-- services.PromptService.delete_prompt: owner-scoped lookup, then the ORM
cascade (`all, delete-orphan`) removes the prompt together with every version
whose prompt_id references it. -/
def delete_prompt (db : DB) (user : UserId) (prompt_id : Nat) : Bool × DB :=
  match get_prompt_by_id db user prompt_id with
  | none => (false, db)
  | some _ =>
    (true,
      { db with
        prompts := db.prompts.filter (fun p => !(p.id == prompt_id)),
        versions := db.versions.filter (fun v => !(v.prompt_id == prompt_id)) })

/-- The `WHERE prompt_id = ?` restriction on the versions table. -/
def versionsOf (db : DB) (prompt_id : Nat) : List VersionRec :=
  db.versions.filter (fun v => v.prompt_id == prompt_id)

/-- `SELECT max(version_number) ... or 0` of create_version. -/
def maxVersionNumber (db : DB) (prompt_id : Nat) : Nat :=
  ((versionsOf db prompt_id).map (fun v => v.version_number)).foldr max 0

/-- The UPDATE of create_version clearing is_current on the rows of this
prompt that currently hold it. -/
def clearCurrent (prompt_id : Nat) (v : VersionRec) : VersionRec :=
  if v.prompt_id == prompt_id && v.is_current then { v with is_current := false }
  else v

/-- The version row inserted by create_version: number = max+1, is_current
set. -/
def newVersionRow (db : DB) (prompt_id : Nat) (d : PromptVersionCreate) :
    VersionRec :=
  { id := db.nextId, prompt_id := prompt_id,
    version_number := maxVersionNumber db prompt_id + 1,
    content := d.content, commit_message := d.commit_message,
    created_at := db.nextId, is_current := true }

/-- The committed state of a successful create_version: old current flag
cleared, the new row appended as current, the prompt row repointed. -/
def create_version_db (db : DB) (prompt_id : Nat) (d : PromptVersionCreate) :
    DB :=
  { db with
    versions := (db.versions.map (clearCurrent prompt_id)) ++
      [newVersionRow db prompt_id d],
    prompts := db.prompts.map (fun p =>
      if p.id == prompt_id then
        { p with current_version_id := some (newVersionRow db prompt_id d).id }
      else p),
    nextId := db.nextId + 1 }

/-- services.PromptService.create_version: owner-scoped prompt lookup; next
number is max+1; the old current flag is cleared, the new version inserted as
current, and the prompt's current_version_id repointed, all committed as one
unit. -/
def create_version (db : DB) (user : UserId) (prompt_id : Nat)
    (d : PromptVersionCreate) : Option VersionRec × DB :=
  match get_prompt_by_id db user prompt_id with
  | none => (none, db)
  | some _ =>
    (some (newVersionRow db prompt_id d), create_version_db db prompt_id d)

/-- services.PromptService.get_version: owner-scoped prompt lookup, then exact
match on (prompt_id, version_number). -/
def get_version (db : DB) (user : UserId) (prompt_id version_number : Nat) :
    Option VersionRec :=
  match get_prompt_by_id db user prompt_id with
  | none => none
  | some _ =>
    db.versions.find? (fun v =>
      v.prompt_id == prompt_id && v.version_number == version_number)

/-- ORDER BY version_number DESC. -/
def numberDesc (v w : VersionRec) : Prop := w.version_number ≤ v.version_number

instance : DecidableRel numberDesc := fun v w =>
  inferInstanceAs (Decidable (w.version_number ≤ v.version_number))

/-- services.PromptService.list_versions: empty when the owner-scoped prompt
lookup fails, otherwise all versions of the prompt ordered by version_number
descending. -/
def list_versions (db : DB) (user : UserId) (prompt_id : Nat) :
    List VersionRec :=
  match get_prompt_by_id db user prompt_id with
  | none => []
  | some _ => List.insertionSort numberDesc (versionsOf db prompt_id)

/-- The default commit message of restore_version (quotes not involved). -/
def restoredMsg (version_number : Nat) : String :=
  s!"Restored from version {version_number}"

/-- services.PromptService.restore_version: fetch the target version (None
when absent, nothing written), then create_version with the target's content
and the message defaulting to `restoredMsg`. -/
def restore_version (db : DB) (user : UserId) (prompt_id version_number : Nat)
    (commit_message : Option String) : Option VersionRec × DB :=
  match get_version db user prompt_id version_number with
  | none => (none, db)
  | some target =>
    create_version db user prompt_id
      { content := target.content,
        commit_message :=
          some (pyOrElse commit_message (restoredMsg version_number)) }

end PromptService

/-- Modelled from the spec: `str.splitlines(keepends=True)` of the Python
runtime is outside src/; the spec says the diff is computed "over the two
contents' line sequences". Lines are cut after each newline character and
keep it (the rarer Python line terminators are not modelled; no claim uses
them). -/
def splitLinesKeepAux : List Char → List Char → List String
  | [], [] => []
  | [], acc => [String.mk acc.reverse]
  | c :: cs, acc =>
    if c = '\n' then String.mk (c :: acc).reverse :: splitLinesKeepAux cs []
    else splitLinesKeepAux cs (c :: acc)

/-- Content as a line sequence with kept line ends. -/
def splitLinesKeep (s : String) : List String := splitLinesKeepAux s.data []

/-- Length of the longest common prefix of two line sequences. -/
def commonPrefixLen : List String → List String → Nat
  | x :: xs, y :: ys => if x = y then commonPrefixLen xs ys + 1 else 0
  | _, _ => 0

/-- Modelled from the spec: the hunk body of the unified diff — up to three
lines of shared context either side of the changed region, then the changed
lines of the from-sequence carrying a "-" prefix and of the to-sequence
carrying a "+" prefix, each line keeping its own line end. -/
def unifiedHunk (a b : List String) : String :=
  let p := commonPrefixLen a b
  let s := min (commonPrefixLen a.reverse b.reverse)
    (min (a.length - p) (b.length - p))
  let pre := min 3 p
  let post := min 3 s
  let aMid := (a.drop p).take (a.length - s - p)
  let bMid := (b.drop p).take (b.length - s - p)
  let ctxPre := (a.drop (p - pre)).take pre
  let ctxPost := (a.drop (a.length - s)).take post
  let aStart := p - pre
  s!"@@ -{aStart + 1},{pre + aMid.length + post} +{aStart + 1},{pre + bMid.length + post} @@" ++
    String.join (ctxPre.map (fun l => " " ++ l)) ++
    String.join (aMid.map (fun l => "-" ++ l)) ++
    String.join (bMid.map (fun l => "+" ++ l)) ++
    String.join (ctxPost.map (fun l => " " ++ l))

/-- Modelled from the spec: difflib.unified_diff (Python stdlib, outside
src/), as the spec describes it. Called with lineterm = "" and its emitted
lines joined with "", it yields the empty string when the two line sequences
are equal, and otherwise the header lines `--- fromfile` and `+++ tofile`
(carrying no newline of their own) followed by the hunk: an
`@@ -i,n +j,m @@` range header and lines prefixed with " ", "-" or "+"
drawn from the from/to sequences. The multi-hunk grouping of the library is
modelled as a single hunk around the changed region. -/
def unifiedDiff (a b : List String) (fromfile tofile : String) : String :=
  if a = b then ""
  else "--- " ++ fromfile ++ "+++ " ++ tofile ++ unifiedHunk a b

namespace PromptService

/-- services.PromptService.compare_versions: fetch both versions
(owner-scoped); None when either is missing; otherwise the unified diff of
their contents, version1 as the from side labelled "Version {version1}",
version2 as the to side labelled "Version {version2}". -/
def compare_versions (db : DB) (user : UserId)
    (prompt_id version1 version2 : Nat) : Option String :=
  match get_version db user prompt_id version1,
        get_version db user prompt_id version2 with
  | some v1, some v2 =>
    some (unifiedDiff (splitLinesKeep v1.content) (splitLinesKeep v2.content)
      s!"Version {version1}" s!"Version {version2}")
  | _, _ => none

/-- Content-match of search_prompts_by_content: the JOIN of Prompt on
current_version_id = PromptVersion.id plus ILIKE on that version's content
(an inner join: prompts without a dereferencable current version drop out). -/
def contentMatches (db : DB) (term : String) (p : PromptRec) : Bool :=
  match p.current_version_id with
  | none => false
  | some vid =>
    match db.versions.find? (fun v => v.id == vid) with
    | none => false
    | some v => ilikeContains term v.content

/-- Filter pipeline of services.PromptService.search_prompts_by_content
before ordering and pagination: content join/match, then the visibility
filter. -/
def search_prompts_query (db : DB) (user : Option UserId) (term : String)
    (include_private : Bool) : List PromptRec :=
  (db.prompts.filter (contentMatches db term)).filter
    (visibilityFilter user include_private)

/-- services.PromptService.search_prompts_by_content with its ordering and
pagination. -/
def search_prompts_by_content (db : DB) (user : Option UserId) (term : String)
    (page page_size : Nat) (include_private : Bool) : List PromptRec × Nat :=
  let q := search_prompts_query db user term include_private
  (((List.insertionSort updatedDesc q).drop ((page - 1) * page_size)).take
      page_size,
    q.length)

/-- models.Prompt.current_version property: dereference current_version_id in
the session. -/
def currentVersionOf (db : DB) (p : PromptRec) : Option VersionRec :=
  match p.current_version_id with
  | none => none
  | some vid => db.versions.find? (fun v => v.id == vid)

/-- services.PromptService.download_prompts: visibility filter, optional
project-name join, count, ORDER BY updated_at DESC, no pagination; each
prompt is served with its current version, whose content is replaced by
"[Content excluded]" when include_content is false. The filters_applied
bookkeeping dict of the source is response metadata and not modelled. -/
def download_prompts (db : DB) (user : Option UserId)
    (dp : PromptDownloadParams) (include_private : Bool) :
    List (PromptRec × Option VersionRec) × Nat :=
  let q := db.prompts.filter (visibilityFilter user include_private)
  let q :=
    if strTruthy dp.project_name then
      q.filter (fun p =>
        (db.projects.find? (fun pr =>
          some pr.id == p.project_id && pr.name == dp.project_name.getD "")).isSome)
    else q
  let items := (List.insertionSort updatedDesc q).map
    (fun p => (p, currentVersionOf db p))
  let items :=
    if dp.include_content then items
    else items.map (fun pv =>
      (pv.1, pv.2.map (fun v => { v with content := "[Content excluded]" })))
  (items, q.length)

end PromptService

/-- The three request auth modes of routes.py: the auth dependency
get_current_user_optional yields the pair (user, is_api_key_auth). -/
inductive Auth where
  | anon : Auth
  | session : UserId → Auth
  | apiKey : UserId → Auth
deriving Repr, DecidableEq

/-- The user component the routes pass to the service layer. -/
def Auth.user : Auth → Option UserId
  | .anon => none
  | .session u => some u
  | .apiKey u => some u

/-- The is_api_key_auth flag of the auth dependency. -/
def Auth.isApiKeyAuth : Auth → Bool
  | .apiKey _ => true
  | _ => false

/-- routes.py: `include_private = bool(user and is_api_key_auth)`. -/
def Auth.includePrivate (a : Auth) : Bool := a.user.isSome && a.isApiKeyAuth

/-- routes.get_prompt (GET /prompts/id): passes only the user to
get_prompt_public_or_private; the is_api_key_auth flag is not consulted. -/
def get_prompt_route (db : DB) (a : Auth) (prompt_id : Nat) :
    Option PromptRec :=
  PromptService.get_prompt_public_or_private db prompt_id a.user

/-- routes.update_version (PUT /prompts/id/versions/n): fetch the version
owner-scoped; when the request carries a commit_message, write it to that
row and commit; no other column is written. -/
def update_version (db : DB) (user : UserId) (prompt_id version_number : Nat)
    (commit_message : Option String) : Option VersionRec × DB :=
  match PromptService.get_version db user prompt_id version_number with
  | none => (none, db)
  | some v =>
    match commit_message with
    | none => (some v, db)
    | some m =>
      (some { v with commit_message := some m },
        { db with versions := db.versions.map (fun w =>
            if w.id == v.id then { w with commit_message := some m } else w) })

/-! Helper lemmas about list operations under field-preserving rewrites. -/

theorem find?_congr_pred {α : Type} {p q : α → Bool} (l : List α)
    (h : ∀ a ∈ l, p a = q a) : l.find? p = l.find? q := by
  induction l with
  | nil => rfl
  | cons x xs ih =>
    simp only [List.find?]
    rw [h x (by simp)]
    cases hq : q x with
    | true => rfl
    | false => exact ih (fun a ha => h a (by simp [ha]))

theorem find?_map_of_pred {α : Type} (f : α → α) (p : α → Bool)
    (hf : ∀ a, p (f a) = p a) (l : List α) :
    (l.map f).find? p = (l.find? p).map f := by
  have h : l.find? (p ∘ f) = l.find? p :=
    find?_congr_pred l (fun a _ => hf a)
  rw [List.find?_map, h]

theorem filter_map_of_pred {α : Type} (f : α → α) (p : α → Bool)
    (hf : ∀ a, p (f a) = p a) (l : List α) :
    (l.map f).filter p = (l.filter p).map f := by
  rw [List.filter_map]
  congr 1
  exact List.filter_congr (fun a _ => hf a)

namespace PromptService

/-- clearCurrent rewrites only the is_current flag. -/
theorem clearCurrent_prompt_id (pid : Nat) (v : VersionRec) :
    (clearCurrent pid v).prompt_id = v.prompt_id := by
  unfold clearCurrent; split <;> rfl

theorem clearCurrent_version_number (pid : Nat) (v : VersionRec) :
    (clearCurrent pid v).version_number = v.version_number := by
  unfold clearCurrent; split <;> rfl

theorem clearCurrent_content (pid : Nat) (v : VersionRec) :
    (clearCurrent pid v).content = v.content := by
  unfold clearCurrent; split <;> rfl

theorem clearCurrent_id (pid : Nat) (v : VersionRec) :
    (clearCurrent pid v).id = v.id := by
  unfold clearCurrent; split <;> rfl

end PromptService

/-! Concrete fixtures used by witnesses. -/

/-- A public prompt owned by user 1. -/
def fxPubPrompt : PromptRec :=
  { id := 0, user_id := 1, project_id := none, name := "x", description := none,
    location := "lx", tags := [], is_public := true, updated_at := 0,
    current_version_id := some 1 }

/-- Its single (current) version. -/
def fxPubVersion : VersionRec :=
  { id := 1, prompt_id := 0, version_number := 1, content := "v1\n",
    commit_message := some "Initial version", created_at := 0,
    is_current := true }

/-- A store holding one public prompt of user 1 with one version. -/
def fxDB : DB :=
  { projects := [], prompts := [fxPubPrompt], versions := [fxPubVersion],
    nextId := 2 }

/-- The projection that keeps everything of a version row except its commit
message. -/
def versionSkeleton (v : VersionRec) : Nat × Nat × Nat × String × Nat × Bool :=
  (v.id, v.prompt_id, v.version_number, v.content, v.created_at, v.is_current)

/-- C10: the update-version route can change only a version's commit_message:
prompts (hence every current_version_id), projects, the id counter, and every
version's id, prompt_id, version_number, content, created_at and is_current
are the same after the call as before. -/
theorem c10_update_version_frame (db : DB) (user : UserId)
    (prompt_id version_number : Nat) (msg : Option String) :
    (update_version db user prompt_id version_number msg).2.prompts = db.prompts ∧
    (update_version db user prompt_id version_number msg).2.projects = db.projects ∧
    (update_version db user prompt_id version_number msg).2.nextId = db.nextId ∧
    (update_version db user prompt_id version_number msg).2.versions.map versionSkeleton
      = db.versions.map versionSkeleton := by
  unfold update_version
  cases hv : PromptService.get_version db user prompt_id version_number with
  | none => simp
  | some v =>
    cases msg with
    | none => simp
    | some m =>
      refine ⟨rfl, rfl, rfl, ?_⟩
      simp only [List.map_map]
      apply List.map_congr_left
      intro w _
      by_cases h : w.id = v.id <;> simp [versionSkeleton, h]

/-- C9: the version-history operations are owner-only irrespective of the
prompt's public flag: when no prompt with this id is owned by the requester,
get_version, restore_version and compare_versions signal NotFound (restore
leaving the store unchanged) and list_versions returns the empty list. -/
theorem c9_version_ops_owner_only (db : DB) (u : UserId)
    (pid n a b : Nat) (m : Option String)
    (hnot : ∀ p ∈ db.prompts, p.id = pid → p.user_id ≠ u) :
    PromptService.get_version db u pid n = none ∧
    PromptService.list_versions db u pid = [] ∧
    PromptService.restore_version db u pid n m = (none, db) ∧
    PromptService.compare_versions db u pid a b = none := by
  have hg : PromptService.get_prompt_by_id db u pid = none := by
    rw [PromptService.get_prompt_by_id, List.find?_eq_none]
    intro p hp
    simp only [Bool.and_eq_true, beq_iff_eq, not_and]
    exact hnot p hp
  have hv : ∀ k, PromptService.get_version db u pid k = none := by
    intro k
    rw [PromptService.get_version, hg]
  refine ⟨hv n, ?_, ?_, ?_⟩
  · rw [PromptService.list_versions, hg]
  · rw [PromptService.restore_version, hv n]
  · rw [PromptService.compare_versions, hv a, hv b]

/-- C9 witness: user 2 requests the versions of the public prompt of user 1;
every operation reports NotFound or the empty list. -/
theorem c9_witness :
    (∀ p ∈ fxDB.prompts, p.id = 0 → p.user_id ≠ 2) ∧
    PromptService.get_version fxDB 2 0 1 = none ∧
    PromptService.list_versions fxDB 2 0 = [] ∧
    PromptService.restore_version fxDB 2 0 1 none = (none, fxDB) ∧
    PromptService.compare_versions fxDB 2 0 1 1 = none :=
  ⟨by decide, c9_version_ops_owner_only fxDB 2 0 1 1 1 none (by decide)⟩

/-- A private prompt owned by user 1 named "x". -/
def fxOwnPrompt : PromptRec :=
  { id := 0, user_id := 1, project_id := none, name := "x", description := none,
    location := "lx", tags := [], is_public := false, updated_at := 0,
    current_version_id := some 2 }

/-- Version 1 of fxOwnPrompt. -/
def fxOwnV1 : VersionRec :=
  { id := 1, prompt_id := 0, version_number := 1, content := "a\nb\n",
    commit_message := some "Initial version", created_at := 0,
    is_current := false }

/-- Version 2 of fxOwnPrompt, same content as version 1. -/
def fxOwnV2 : VersionRec :=
  { id := 2, prompt_id := 0, version_number := 2, content := "a\nb\n",
    commit_message := some "again", created_at := 1, is_current := true }

/-- Version 2 with a different second line, for the differing-contents case. -/
def fxDiffV2 : VersionRec :=
  { id := 2, prompt_id := 0, version_number := 2, content := "a\nc\n",
    commit_message := some "again", created_at := 1, is_current := true }

/-- Store: user 1 owns one prompt with two identical-content versions. -/
def fxDB2 : DB :=
  { projects := [], prompts := [fxOwnPrompt], versions := [fxOwnV1, fxOwnV2],
    nextId := 3 }

/-- Store: user 1 owns one prompt with two differing versions. -/
def fxDB3 : DB :=
  { projects := [], prompts := [fxOwnPrompt], versions := [fxOwnV1, fxDiffV2],
    nextId := 3 }

/-- A create request colliding with the existing name "x". -/
def fxConflictCreate : PromptCreate :=
  { name := "x", description := none, location := "l2", tags := [],
    project_id := none, content := "c", commit_message := none,
    is_public := false }

/-- A create request naming a project id that does not exist. -/
def fxBadProjectCreate : PromptCreate :=
  { name := "fresh", description := none, location := "l2", tags := [],
    project_id := some 9, content := "c", commit_message := none,
    is_public := false }

/-- C6: multi-step mutating operations validate all preconditions before any
mutation: restore of a missing version signals NotFound and leaves the store
unchanged; create_prompt with a colliding (owner, name) raises the conflict
error, and with an unknown project id raises the not-found error, in both
cases leaving the store unchanged (no prompt and no version row created). -/
theorem c6_validate_before_mutate (db : DB) (u : UserId) (pid n : Nat)
    (m : Option String) (d : PromptCreate) :
    (PromptService.get_version db u pid n = none →
      PromptService.restore_version db u pid n m = (none, db)) ∧
    ((db.prompts.find? (fun p => p.user_id == u && p.name == d.name)).isSome = true →
      PromptService.create_prompt db u d =
        .error (PromptService.promptExistsMsg d.name) ∧
      PromptService.create_prompt_db db u d = db) ∧
    (∀ pj, d.project_id = some pj →
      db.prompts.find? (fun p => p.user_id == u && p.name == d.name) = none →
      ProjectService.get_project_by_id db u pj = none →
      PromptService.create_prompt db u d =
        .error (PromptService.projectNotFoundMsg pj) ∧
      PromptService.create_prompt_db db u d = db) := by
  refine ⟨?_, ?_, ?_⟩
  · intro h
    rw [PromptService.restore_version, h]
  · intro h
    have he : PromptService.create_prompt db u d =
        .error (PromptService.promptExistsMsg d.name) := by
      rw [PromptService.create_prompt, if_pos h]
    exact ⟨he, by rw [PromptService.create_prompt_db, he]⟩
  · intro pj hpj hnc hnp
    have he : PromptService.create_prompt db u d =
        .error (PromptService.projectNotFoundMsg pj) := by
      rw [PromptService.create_prompt, if_neg (by simp [hnc]), hpj]
      simp [hnp]
    exact ⟨he, by rw [PromptService.create_prompt_db, he]⟩

/-- C6 witness: on the concrete store, restore of the absent version 5 is a
no-op NotFound, and both create_prompt validation failures leave the store
unchanged. -/
theorem c6_witness :
    (PromptService.get_version fxDB2 1 0 5 = none ∧
      PromptService.restore_version fxDB2 1 0 5 none = (none, fxDB2)) ∧
    ((fxDB2.prompts.find? (fun p => p.user_id == 1 && p.name == fxConflictCreate.name)).isSome = true ∧
      PromptService.create_prompt fxDB2 1 fxConflictCreate =
        .error (PromptService.promptExistsMsg fxConflictCreate.name) ∧
      PromptService.create_prompt_db fxDB2 1 fxConflictCreate = fxDB2) ∧
    (PromptService.create_prompt fxDB2 1 fxBadProjectCreate =
        .error (PromptService.projectNotFoundMsg 9) ∧
      PromptService.create_prompt_db fxDB2 1 fxBadProjectCreate = fxDB2) :=
  ⟨⟨by decide,
    (c6_validate_before_mutate fxDB2 1 0 5 none fxConflictCreate).1 (by decide)⟩,
   ⟨by decide,
    (c6_validate_before_mutate fxDB2 1 0 5 none fxConflictCreate).2.1 (by decide)⟩,
   (c6_validate_before_mutate fxDB2 1 0 5 none fxBadProjectCreate).2.2 9 rfl
     (by decide) (by decide)⟩

/-- Character content of a line sequence. -/
def concatData : List String → List Char
  | [] => []
  | s :: rest => s.data ++ concatData rest

theorem concatData_splitAux (cs : List Char) :
    ∀ acc, concatData (splitLinesKeepAux cs acc) = acc.reverse ++ cs := by
  induction cs with
  | nil =>
    intro acc
    cases acc with
    | nil => rfl
    | cons c cs' => simp [splitLinesKeepAux, concatData]
  | cons c cs ih =>
    intro acc
    by_cases h : c = '\n'
    · subst h
      simp [splitLinesKeepAux, concatData, ih]
    · simp [splitLinesKeepAux, h, concatData, ih]

/-- The line splitter loses nothing: contents with equal line sequences are
equal. -/
theorem splitLinesKeep_inj {s t : String}
    (h : splitLinesKeep s = splitLinesKeep t) : s = t := by
  have hs : concatData (splitLinesKeep s) = s.data := concatData_splitAux s.data []
  have ht : concatData (splitLinesKeep t) = t.data := concatData_splitAux t.data []
  have hd : s.data = t.data := by rw [← hs, ← ht, h]
  cases s; cases t
  exact congrArg String.mk hd

/-- C8: comparing two existing versions with equal contents yields an empty
diff, and the self-comparison always yields an empty diff. -/
theorem c8_compare_identical (db : DB) (u : UserId) (pid a b : Nat)
    (va vb : VersionRec)
    (ha : PromptService.get_version db u pid a = some va)
    (hb : PromptService.get_version db u pid b = some vb)
    (hc : va.content = vb.content) :
    PromptService.compare_versions db u pid a b = some "" ∧
    PromptService.compare_versions db u pid a a = some "" := by
  constructor
  · rw [PromptService.compare_versions, ha, hb]
    simp [unifiedDiff, hc]
  · rw [PromptService.compare_versions, ha]
    simp [unifiedDiff]

/-- C8 witness: versions 1 and 2 of the concrete store have equal contents and
compare empty; so does the self-comparison. -/
theorem c8_witness :
    PromptService.get_version fxDB2 1 0 1 = some fxOwnV1 ∧
    PromptService.get_version fxDB2 1 0 2 = some fxOwnV2 ∧
    fxOwnV1.content = fxOwnV2.content ∧
    PromptService.compare_versions fxDB2 1 0 1 2 = some "" ∧
    PromptService.compare_versions fxDB2 1 0 1 1 = some "" :=
  ⟨by decide, by decide, by decide,
   (c8_compare_identical fxDB2 1 0 1 2 fxOwnV1 fxOwnV2 (by decide) (by decide)
     (by decide)).1,
   (c8_compare_identical fxDB2 1 0 1 2 fxOwnV1 fxOwnV2 (by decide) (by decide)
     (by decide)).2⟩

/-- C7: compare signals NotFound exactly when either version is missing;
otherwise it returns the unified diff with version1's content as the from
side labelled "--- Version {version1}" and version2's content as the to side
labelled "+++ Version {version2}", in that order, regardless of which number
is larger. -/
theorem c7_compare_orientation (db : DB) (u : UserId) (pid a b : Nat) :
    (PromptService.compare_versions db u pid a b = none ↔
      (PromptService.get_version db u pid a = none ∨
        PromptService.get_version db u pid b = none)) ∧
    (∀ va vb, PromptService.get_version db u pid a = some va →
      PromptService.get_version db u pid b = some vb →
      PromptService.compare_versions db u pid a b =
        some (unifiedDiff (splitLinesKeep va.content)
          (splitLinesKeep vb.content) s!"Version {a}" s!"Version {b}") ∧
      (va.content ≠ vb.content →
        ∃ t, PromptService.compare_versions db u pid a b =
          some ("--- " ++ s!"Version {a}" ++ ("+++ " ++ (s!"Version {b}" ++ t))))) := by
  constructor
  · cases hva : PromptService.get_version db u pid a with
    | none => simp [PromptService.compare_versions, hva]
    | some va =>
      cases hvb : PromptService.get_version db u pid b with
      | none => simp [PromptService.compare_versions, hva, hvb]
      | some vb => simp [PromptService.compare_versions, hva, hvb]
  · intro va vb hva hvb
    have hmain : PromptService.compare_versions db u pid a b =
        some (unifiedDiff (splitLinesKeep va.content)
          (splitLinesKeep vb.content) s!"Version {a}" s!"Version {b}") := by
      rw [PromptService.compare_versions, hva, hvb]
    refine ⟨hmain, ?_⟩
    intro hne
    have hlne : splitLinesKeep va.content ≠ splitLinesKeep vb.content :=
      fun hh => hne (splitLinesKeep_inj hh)
    refine ⟨unifiedHunk (splitLinesKeep va.content) (splitLinesKeep vb.content), ?_⟩
    rw [hmain, unifiedDiff, if_neg hlne]
    simp [String.append_assoc]

/-- C7 witness: on the concrete store with differing versions 1 and 2, the
diff of (1, 2) carries the headers in from/to order. -/
theorem c7_witness :
    (PromptService.compare_versions fxDB3 1 0 1 5 = none ↔
      (PromptService.get_version fxDB3 1 0 1 = none ∨
        PromptService.get_version fxDB3 1 0 5 = none)) ∧
    (PromptService.get_version fxDB3 1 0 1 = some fxOwnV1 ∧
      PromptService.get_version fxDB3 1 0 2 = some fxDiffV2 ∧
      fxOwnV1.content ≠ fxDiffV2.content ∧
      ∃ t, PromptService.compare_versions fxDB3 1 0 1 2 =
        some ("--- " ++ "Version 1" ++ ("+++ " ++ ("Version 2" ++ t)))) :=
  ⟨(c7_compare_orientation fxDB3 1 0 1 5).1,
   by decide, by decide, by decide,
   ((c7_compare_orientation fxDB3 1 0 1 2).2 fxOwnV1 fxDiffV2 (by decide)
     (by decide)).2 (by decide)⟩

namespace PromptService

/-- The prompt-row rewrite of create_version_db only repoints
current_version_id, so the owner-scoped lookup finds the rewritten row. -/
theorem get_prompt_by_id_create_version_db (db : DB) (pid : Nat)
    (d : PromptVersionCreate) (u : UserId) (pid' : Nat) :
    get_prompt_by_id (create_version_db db pid d) u pid' =
      (get_prompt_by_id db u pid').map (fun p =>
        if p.id == pid then
          { p with current_version_id := some (newVersionRow db pid d).id }
        else p) := by
  unfold get_prompt_by_id create_version_db
  exact find?_map_of_pred _ _
    (fun q => by by_cases h : (q.id == pid) = true <;> simp [h]) _

/-- clearCurrent preserves the (prompt_id, version_number) search predicate. -/
theorem clearCurrent_pred (pid k n : Nat) (v : VersionRec) :
    ((clearCurrent pid v).prompt_id == n && (clearCurrent pid v).version_number == k)
      = (v.prompt_id == n && v.version_number == k) := by
  rw [clearCurrent_prompt_id, clearCurrent_version_number]

end PromptService

/-- C5: restoring an existing version k of a prompt whose highest version
number is N appends and returns a new version numbered N+1 with exactly
version k's content and the commit message defaulting to
"Restored from version {k}"; afterwards get_version still returns version k
with its content and version_number unchanged. -/
theorem c5_restore_appends (db : DB) (u : UserId) (pid k N : Nat)
    (m : Option String) (vk : VersionRec)
    (hget : PromptService.get_version db u pid k = some vk)
    (hN : PromptService.maxVersionNumber db pid = N) :
    ∃ v' db', PromptService.restore_version db u pid k m = (some v', db') ∧
      v'.version_number = N + 1 ∧
      v'.content = vk.content ∧
      v'.commit_message = some (pyOrElse m (PromptService.restoredMsg k)) ∧
      ∃ vk', PromptService.get_version db' u pid k = some vk' ∧
        vk'.content = vk.content ∧
        vk'.version_number = vk.version_number := by
  subst hN
  cases hp : PromptService.get_prompt_by_id db u pid with
  | none =>
    rw [PromptService.get_version, hp] at hget
    cases hget
  | some p =>
    have hfind : db.versions.find?
        (fun v => v.prompt_id == pid && v.version_number == k) = some vk := by
      rw [PromptService.get_version, hp] at hget
      exact hget
    have hrest : PromptService.restore_version db u pid k m =
        (some (PromptService.newVersionRow db pid
          { content := vk.content,
            commit_message := some (pyOrElse m (PromptService.restoredMsg k)) }),
         PromptService.create_version_db db pid
          { content := vk.content,
            commit_message := some (pyOrElse m (PromptService.restoredMsg k)) }) := by
      rw [PromptService.restore_version, hget]
      unfold PromptService.create_version
      rw [hp]
    refine ⟨_, _, hrest, rfl, rfl, rfl,
      PromptService.clearCurrent pid vk, ?_,
      PromptService.clearCurrent_content pid vk,
      PromptService.clearCurrent_version_number pid vk⟩
    rw [PromptService.get_version,
      PromptService.get_prompt_by_id_create_version_db, hp]
    show ((PromptService.create_version_db db pid _).versions.find? _) = _
    have h1 : ((db.versions.map (PromptService.clearCurrent pid)).find?
        (fun v => v.prompt_id == pid && v.version_number == k))
        = some (PromptService.clearCurrent pid vk) := by
      rw [find?_map_of_pred _ _ (PromptService.clearCurrent_pred pid k pid), hfind]
      rfl
    show ((db.versions.map (PromptService.clearCurrent pid)) ++ _).find? _ = _
    rw [List.find?_append, h1]
    rfl

/-- C5 witness: restoring version 1 of the two-version concrete store yields
version 3 with version 1's content and the default message, and version 1 is
unchanged afterwards. -/
theorem c5_witness :
    PromptService.get_version fxDB3 1 0 1 = some fxOwnV1 ∧
    PromptService.maxVersionNumber fxDB3 0 = 2 ∧
    (∃ v' db', PromptService.restore_version fxDB3 1 0 1 none = (some v', db') ∧
      v'.version_number = 2 + 1 ∧
      v'.content = fxOwnV1.content ∧
      v'.commit_message = some (pyOrElse none (PromptService.restoredMsg 1)) ∧
      ∃ vk', PromptService.get_version db' 1 0 1 = some vk' ∧
        vk'.content = fxOwnV1.content ∧
        vk'.version_number = fxOwnV1.version_number) :=
  ⟨by decide, by decide,
   c5_restore_appends fxDB3 1 0 1 2 none fxOwnV1 (by decide) (by decide)⟩

/-- C4, counterexample: a session-authenticated requester (user 2, no API
key) retrieves the public prompt of user 1 through the single-record get,
although the session-mode predicate used by list/search/download excludes
that prompt — the get path does not apply the session narrowing the claim
requires. -/
theorem c4_counterexample :
    get_prompt_route fxDB (Auth.session 2) 0 = some fxPubPrompt ∧
    fxPubPrompt.user_id ≠ 2 ∧
    fxPubPrompt.is_public = true ∧
    PromptService.visibilityFilter (Auth.session 2).user
      (Auth.session 2).includePrivate fxPubPrompt = false := by
  decide

/-- C4 amended: the single-record get applies a two-mode rule rather than the
three-mode rule of list/search/download: for every requester the prompt is
returned exactly when it is public or owned by the requester — the API-key
flag is immaterial, so session- and API-key-authentication behave alike here
— and an excluded prompt is reported identically to a nonexistent one
(None, mapped to 404 by the route). -/
theorem c4_amended_get_two_mode (db : DB) (a : Auth) (pid : Nat) :
    get_prompt_route db a pid =
      (match db.prompts.find? (fun p => p.id == pid) with
       | none => none
       | some p =>
         if p.is_public || (a.user == some p.user_id) then some p else none) ∧
    (∀ u, get_prompt_route db (Auth.session u) pid
      = get_prompt_route db (Auth.apiKey u) pid) := by
  constructor
  · unfold get_prompt_route PromptService.get_prompt_public_or_private
    cases hf : db.prompts.find? (fun p => p.id == pid) with
    | none => rfl
    | some p =>
      cases a with
      | anon =>
        by_cases hpub : p.is_public = true <;> simp [Auth.user, hpub]
      | session u =>
        by_cases hpub : p.is_public = true
        · simp [Auth.user, hpub]
        · by_cases hu : p.user_id = u
          · simp [Auth.user, hpub, hu]
          · have h2 : ((Auth.session u).user == some p.user_id) = false := by
              simp only [Auth.user, beq_iff_eq, Option.some.injEq,
                Bool.eq_false_iff, ne_eq]
              exact fun h => hu h.symm
            simp only [Auth.user, hpub, hu]
            simp only [Auth.user] at h2
            simp [hu, h2]
      | apiKey u =>
        by_cases hpub : p.is_public = true
        · simp [Auth.user, hpub]
        · by_cases hu : p.user_id = u
          · simp [Auth.user, hpub, hu]
          · have h2 : ((Auth.apiKey u).user == some p.user_id) = false := by
              simp only [Auth.user, beq_iff_eq, Option.some.injEq,
                Bool.eq_false_iff, ne_eq]
              exact fun h => hu h.symm
            simp only [Auth.user, hpub, hu]
            simp only [Auth.user] at h2
            simp [hu, h2]
  · intro u
    rfl

/-- The spec's three-mode visibility rule, written from the spec's words to
be compared with the filter the source applies on every read path: anonymous
sees exactly the public prompts, session-authenticated sees exactly the
requester's own prompts, API-key-authenticated sees the union of own and
public. -/
def specModeAdmits (a : Auth) (p : PromptRec) : Prop :=
  match a with
  | .anon => p.is_public = true
  | .session u => p.user_id = u
  | .apiKey u => p.user_id = u ∨ p.is_public = true

/-- The source's repeated visibility filter, fed with the route's
(user, include_private) threading, coincides with the spec's three-mode
rule. -/
theorem visibilityFilter_eq_admits (a : Auth) (p : PromptRec) :
    PromptService.visibilityFilter a.user a.includePrivate p = true ↔
      specModeAdmits a p := by
  cases a <;>
    simp [PromptService.visibilityFilter, Auth.user, Auth.includePrivate,
      Auth.isApiKeyAuth, specModeAdmits, or_comm]

/-- C3: on the full (pre-pagination) result sequences whose pages the
endpoints serve, the list, content-search and download operations return a
prompt exactly when the requester's auth mode admits it (content search
additionally requires the content match that defines the operation):
anonymous sees exactly the public prompts, session-authenticated exactly the
requester's own, API-key-authenticated the union of own and public. -/
theorem c3_read_visibility (db : DB) (a : Auth) (p : PromptRec)
    (term : String) :
    (p ∈ PromptService.list_prompts_query db a.user defaultSearchParams
        a.includePrivate ↔
      p ∈ db.prompts ∧ specModeAdmits a p) ∧
    (p ∈ PromptService.search_prompts_query db a.user term a.includePrivate ↔
      p ∈ db.prompts ∧ PromptService.contentMatches db term p = true ∧
        specModeAdmits a p) ∧
    (p ∈ (PromptService.download_prompts db a.user defaultDownloadParams
        a.includePrivate).1.map Prod.fst ↔
      p ∈ db.prompts ∧ specModeAdmits a p) := by
  refine ⟨?_, ?_, ?_⟩
  · have hq : PromptService.list_prompts_query db a.user defaultSearchParams
        a.includePrivate
        = db.prompts.filter
            (PromptService.visibilityFilter a.user a.includePrivate) := rfl
    rw [hq, List.mem_filter, visibilityFilter_eq_admits]
  · rw [PromptService.search_prompts_query, List.mem_filter, List.mem_filter,
      visibilityFilter_eq_admits]
    tauto
  · have hq : (PromptService.download_prompts db a.user defaultDownloadParams
        a.includePrivate).1
        = (List.insertionSort PromptService.updatedDesc
            (db.prompts.filter
              (PromptService.visibilityFilter a.user a.includePrivate))).map
          (fun q => (q, PromptService.currentVersionOf db q)) := rfl
    rw [hq, List.map_map]
    have hid : (Prod.fst ∘ fun q : PromptRec =>
        (q, PromptService.currentVersionOf db q)) = fun q => q := rfl
    rw [hid, List.map_id']
    rw [(List.perm_insertionSort PromptService.updatedDesc _).mem_iff,
      List.mem_filter, visibilityFilter_eq_admits]

/-! Machinery for the version-chain claim: id-freshness well-formedness and
the per-prompt chain invariant maintained by create_prompt / create_version. -/

/-- Id-freshness of the store: every row id (and every prompt_id reference)
is below the fresh-id counter, as UUID generation guarantees in the source. -/
def WFdb (db : DB) : Prop :=
  (∀ p ∈ db.prompts, p.id < db.nextId) ∧
  (∀ v ∈ db.versions, v.id < db.nextId ∧ v.prompt_id < db.nextId) ∧
  (∀ pr ∈ db.projects, pr.id < db.nextId)

/-- The chain invariant of one prompt: the owner-scoped lookup succeeds, the
version numbers of the prompt are 1..k in insertion order, and a version is
current exactly when it carries number k. -/
def ChainInv (db : DB) (u : UserId) (pid k : Nat) : Prop :=
  (PromptService.get_prompt_by_id db u pid).isSome = true ∧
  (PromptService.versionsOf db pid).map (fun v => v.version_number)
    = List.range' 1 k ∧
  (∀ v ∈ PromptService.versionsOf db pid,
    v.is_current = decide (v.version_number = k))

/-- The state after the initial create followed by one create_version call per
element of ds (the route applies them sequentially). -/
def runCreates (db : DB) (u : UserId) (pid : Nat)
    (ds : List PromptVersionCreate) : DB :=
  ds.foldl (fun db d => (PromptService.create_version db u pid d).2) db

theorem foldr_max_range' (k : Nat) :
    ∀ s, (List.range' s (k + 1)).foldr max 0 = s + k := by
  induction k with
  | zero => intro s; simp [List.range']
  | succ k ih =>
    intro s
    rw [List.range'_succ, List.foldr_cons, ih (s + 1)]
    omega

theorem maxVersionNumber_of_chain (db : DB) (pid k : Nat)
    (h : (PromptService.versionsOf db pid).map (fun v => v.version_number)
      = List.range' 1 k) :
    PromptService.maxVersionNumber db pid = k := by
  rw [PromptService.maxVersionNumber, h]
  cases k with
  | zero => rfl
  | succ k => rw [foldr_max_range' k 1]; omega

theorem create_prompt_ok_eq (db : DB) (u : UserId) (d : PromptCreate)
    (p : PromptRec) (db' : DB)
    (hok : PromptService.create_prompt db u d = .ok (p, db')) :
    p = PromptService.newPromptRow db u d ∧
    db' = { db with
      prompts := db.prompts ++ [PromptService.newPromptRow db u d],
      versions := db.versions ++ [PromptService.initialVersionRow db d],
      nextId := db.nextId + 2 } := by
  unfold PromptService.create_prompt PromptService.create_prompt_go at hok
  split at hok
  · simp at hok
  · split at hok
    · split at hok
      · simp only [Except.ok.injEq, Prod.mk.injEq] at hok
        exact ⟨hok.1.symm, hok.2.symm⟩
      · simp at hok
    · simp only [Except.ok.injEq, Prod.mk.injEq] at hok
      exact ⟨hok.1.symm, hok.2.symm⟩

/-- create_prompt on a well-formed store yields a fresh prompt id, establishes
the chain invariant at k = 1, and preserves well-formedness. -/
theorem chainInv_create_prompt (db : DB) (u : UserId) (d : PromptCreate)
    (p : PromptRec) (db' : DB) (hwf : WFdb db)
    (hok : PromptService.create_prompt db u d = .ok (p, db')) :
    ChainInv db' u p.id 1 ∧ WFdb db' := by
  obtain ⟨hp, hdb⟩ := create_prompt_ok_eq db u d p db' hok
  have hpid : p.id = db.nextId := by rw [hp]; rfl
  subst hdb
  have holdp : ∀ q ∈ db.prompts, (q.id == p.id && q.user_id == u) = false := by
    intro q hq
    have h1 := hwf.1 q hq
    have : q.id ≠ p.id := by omega
    simp [this]
  have holdv : ∀ v ∈ db.versions, (v.prompt_id == p.id) = false := by
    intro v hv
    have h1 := (hwf.2.1 v hv).2
    have : v.prompt_id ≠ p.id := by omega
    simp [this]
  have hversions : PromptService.versionsOf
      { db with
        prompts := db.prompts ++ [PromptService.newPromptRow db u d],
        versions := db.versions ++ [PromptService.initialVersionRow db d],
        nextId := db.nextId + 2 } p.id
      = [PromptService.initialVersionRow db d] := by
    rw [PromptService.versionsOf]
    show (db.versions ++ [PromptService.initialVersionRow db d]).filter _ = _
    rw [List.filter_append]
    have h0 : db.versions.filter (fun v => v.prompt_id == p.id) = [] := by
      rw [List.filter_eq_nil_iff]
      intro v hv
      simp [holdv v hv]
    rw [h0]
    have h1 : (PromptService.initialVersionRow db d).prompt_id = p.id := by
      rw [hpid]; rfl
    simp [List.filter, h1]
  refine ⟨⟨?_, ?_, ?_⟩, ?_, ?_, ?_⟩
  · rw [PromptService.get_prompt_by_id]
    show ((db.prompts ++ [PromptService.newPromptRow db u d]).find? _).isSome = true
    rw [List.find?_append]
    have h0 : db.prompts.find? (fun q => q.id == p.id && q.user_id == u) = none := by
      rw [List.find?_eq_none]
      intro q hq
      simp [holdp q hq]
    rw [h0]
    have h1 : ((PromptService.newPromptRow db u d).id == p.id &&
        (PromptService.newPromptRow db u d).user_id == u) = true := by
      rw [hp]; simp [PromptService.newPromptRow]
    simp [List.find?, h1]
  · rw [hversions]
    rfl
  · rw [hversions]
    intro v hv
    have : v = PromptService.initialVersionRow db d := by simpa using hv
    subst this
    rfl
  · intro q hq
    rw [List.mem_append] at hq
    cases hq with
    | inl h =>
      have := hwf.1 q h
      show q.id < db.nextId + 2
      omega
    | inr h =>
      have : q = PromptService.newPromptRow db u d := by simpa using h
      subst this
      show db.nextId < db.nextId + 2
      omega
  · intro v hv
    rw [List.mem_append] at hv
    cases hv with
    | inl h =>
      have := hwf.2.1 v h
      refine ⟨?_, ?_⟩
      · show v.id < db.nextId + 2
        omega
      · show v.prompt_id < db.nextId + 2
        omega
    | inr h =>
      have : v = PromptService.initialVersionRow db d := by simpa using h
      subst this
      constructor
      · show db.nextId + 1 < db.nextId + 2
        omega
      · show db.nextId < db.nextId + 2
        omega
  · intro pr hpr
    have := hwf.2.2 pr hpr
    show pr.id < db.nextId + 2
    omega

/-- create_version on a well-formed store satisfying the chain invariant at k
succeeds, extends the chain to k+1, and preserves well-formedness. -/
theorem chainInv_create_version (db : DB) (u : UserId) (pid k : Nat)
    (d : PromptVersionCreate) (hwf : WFdb db) (hinv : ChainInv db u pid k) :
    ChainInv (PromptService.create_version db u pid d).2 u pid (k + 1) ∧
    WFdb (PromptService.create_version db u pid d).2 := by
  obtain ⟨p, hp⟩ := Option.isSome_iff_exists.mp hinv.1
  have hstep : (PromptService.create_version db u pid d).2
      = PromptService.create_version_db db pid d := by
    unfold PromptService.create_version
    rw [hp]
  rw [hstep]
  have hmax : PromptService.maxVersionNumber db pid = k :=
    maxVersionNumber_of_chain db pid k hinv.2.1
  have hnum : (PromptService.newVersionRow db pid d).version_number = k + 1 := by
    show PromptService.maxVersionNumber db pid + 1 = k + 1
    omega
  have hvers : PromptService.versionsOf
      (PromptService.create_version_db db pid d) pid
      = (PromptService.versionsOf db pid).map (PromptService.clearCurrent pid)
        ++ [PromptService.newVersionRow db pid d] := by
    rw [PromptService.versionsOf]
    show ((db.versions.map (PromptService.clearCurrent pid)) ++ _).filter _ = _
    rw [List.filter_append]
    congr 1
    · exact filter_map_of_pred _ _
        (fun v => by rw [PromptService.clearCurrent_prompt_id]) _
    · have hpr : ((PromptService.newVersionRow db pid d).prompt_id == pid)
          = true := by
        simp [PromptService.newVersionRow]
      simp [List.filter, hpr]
  have hpidlt : pid < db.nextId := by
    rw [PromptService.get_prompt_by_id] at hp
    have hmem := List.mem_of_find?_eq_some hp
    have hpred := List.find?_some hp
    simp only [Bool.and_eq_true, beq_iff_eq] at hpred
    have := hwf.1 p hmem
    omega
  refine ⟨⟨?_, ?_, ?_⟩, ?_, ?_, ?_⟩
  · rw [PromptService.get_prompt_by_id_create_version_db, hp]
    rfl
  · rw [hvers, List.map_append, List.map_map]
    have h1 : ((fun v : VersionRec => v.version_number) ∘
        PromptService.clearCurrent pid)
        = fun v : VersionRec => v.version_number := by
      funext v
      exact PromptService.clearCurrent_version_number pid v
    rw [h1, hinv.2.1]
    rw [show List.map (fun v : VersionRec => v.version_number)
        [PromptService.newVersionRow db pid d] = [k + 1] from by simp [hnum]]
    rw [List.range'_concat]
    simp [Nat.add_comm]
  · rw [hvers]
    intro v hv
    rw [List.mem_append] at hv
    cases hv with
    | inr h =>
      have hveq : v = PromptService.newVersionRow db pid d := by simpa using h
      subst hveq
      rw [hnum]
      simp [PromptService.newVersionRow]
    | inl h =>
      obtain ⟨w, hw, rfl⟩ := List.mem_map.mp h
      have hwcur := hinv.2.2 w hw
      have hwnum : w.version_number < k + 1 := by
        have hm : w.version_number ∈
            (PromptService.versionsOf db pid).map
              (fun v => v.version_number) :=
          List.mem_map_of_mem _ hw
        rw [hinv.2.1] at hm
        have := (List.mem_range'_1.mp hm).2
        omega
      have hwpid : (w.prompt_id == pid) = true := by
        rw [PromptService.versionsOf] at hw
        exact (List.mem_filter.mp hw).2
      rw [PromptService.clearCurrent]
      by_cases hcur : w.is_current = true
      · have hwk : w.version_number = k := by
          rw [hcur] at hwcur
          exact of_decide_eq_true hwcur.symm
        rw [if_pos (by simp [hwpid, hcur])]
        show false = decide (w.version_number = k + 1)
        rw [decide_eq_false (by omega)]
      · have hfalse : w.is_current = false := by
          simpa using hcur
        rw [if_neg (by simp [hfalse])]
        rw [hfalse, decide_eq_false (by omega)]
  · simp only [PromptService.create_version_db]
    intro q hq
    obtain ⟨q0, hq0, rfl⟩ := List.mem_map.mp hq
    have h1 := hwf.1 q0 hq0
    by_cases hc : (q0.id == pid) = true <;> simp [hc] <;> omega
  · simp only [PromptService.create_version_db]
    intro v hv
    rw [List.mem_append] at hv
    cases hv with
    | inl h =>
      obtain ⟨w, hw, rfl⟩ := List.mem_map.mp h
      have h1 := hwf.2.1 w hw
      rw [PromptService.clearCurrent_id, PromptService.clearCurrent_prompt_id]
      omega
    | inr h =>
      have hveq : v = PromptService.newVersionRow db pid d := by simpa using h
      subst hveq
      refine ⟨?_, ?_⟩
      · show db.nextId < db.nextId + 1
        omega
      · show pid < db.nextId + 1
        omega
  · simp only [PromptService.create_version_db]
    intro pr hpr
    have := hwf.2.2 pr hpr
    omega

theorem orderedInsert_append_of_lt (v : VersionRec) (l : List VersionRec)
    (h : ∀ w ∈ l, v.version_number < w.version_number) :
    List.orderedInsert PromptService.numberDesc v l = l ++ [v] := by
  induction l with
  | nil => rfl
  | cons w ws ih =>
    rw [List.orderedInsert]
    have h1 : ¬ PromptService.numberDesc v w := by
      have := h w (by simp)
      simp only [PromptService.numberDesc]
      omega
    rw [if_neg h1, ih (fun x hx => h x (by simp [hx]))]
    rfl

/-- Sorting by version_number descending sends a strictly ascending chain to
its reverse. -/
theorem insertionSort_desc_of_ascending :
    ∀ (l : List VersionRec) (s k : Nat),
      l.map (fun v => v.version_number) = List.range' s k →
      List.insertionSort PromptService.numberDesc l = l.reverse := by
  intro l
  induction l with
  | nil => intro s k _; rfl
  | cons v vs ih =>
    intro s k hmap
    cases k with
    | zero => simp at hmap
    | succ k =>
      rw [List.range'_succ] at hmap
      simp only [List.map_cons, List.cons.injEq] at hmap
      obtain ⟨hv, htl⟩ := hmap
      rw [List.insertionSort]
      rw [ih (s + 1) k htl]
      rw [orderedInsert_append_of_lt]
      · rw [List.reverse_cons]
      · intro w hw
        rw [List.mem_reverse] at hw
        have hm : w.version_number ∈ vs.map (fun x => x.version_number) :=
          List.mem_map_of_mem _ hw
        rw [htl] at hm
        have := (List.mem_range'_1.mp hm).1
        omega

theorem chainInv_runCreates (u : UserId) (pid : Nat)
    (ds : List PromptVersionCreate) :
    ∀ (db : DB) (k : Nat), WFdb db → ChainInv db u pid k →
      ChainInv (runCreates db u pid ds) u pid (k + ds.length) ∧
      WFdb (runCreates db u pid ds) := by
  induction ds with
  | nil =>
    intro db k hwf hinv
    simpa [runCreates] using ⟨hinv, hwf⟩
  | cons d ds ih =>
    intro db k hwf hinv
    have hstep := chainInv_create_version db u pid k d hwf hinv
    have hrec := ih (PromptService.create_version db u pid d).2 (k + 1)
      hstep.2 hstep.1
    have harr : k + (d :: ds).length = k + 1 + ds.length := by
      rw [List.length_cons]
      omega
    rw [show runCreates db u pid (d :: ds)
        = runCreates (PromptService.create_version db u pid d).2 u pid ds
      from rfl]
    rw [harr]
    exact hrec

theorem map_filter_number (l : List VersionRec) (N : Nat) :
    (l.filter (fun v => decide (v.version_number = N))).map
      (fun v => v.version_number)
    = (l.map (fun v => v.version_number)).filter (fun n => decide (n = N)) := by
  induction l with
  | nil => rfl
  | cons v vs ih =>
    by_cases h : v.version_number = N <;>
      simp [List.filter_cons, h, ih]

theorem range'_filter_last (k : Nat) :
    ∀ s, (List.range' s (k + 1)).filter (fun n => decide (n = s + k))
      = [s + k] := by
  induction k with
  | zero => intro s; simp [List.range']
  | succ k ih =>
    intro s
    rw [List.range'_succ, List.filter_cons]
    have h1 : (decide (s = s + (k + 1))) = false := decide_eq_false (by omega)
    simp only [h1, Bool.false_eq_true, if_false]
    have h2 := ih (s + 1)
    rw [show s + (k + 1) = s + 1 + k from by omega]
    exact h2

theorem range'_one_filter_last (N : Nat) (h : 1 ≤ N) :
    (List.range' 1 N).filter (fun n => decide (n = N)) = [N] := by
  cases N with
  | zero => omega
  | succ k =>
    have h2 := range'_filter_last k 1
    rw [show 1 + k = k + 1 from by omega] at h2
    exact h2

/-- C1: a prompt created with its initial version and then given one
create_version call per element of ds (N = ds.length + 1 versions in total)
has list_versions return exactly N versions whose version_numbers are
N, N-1, ..., 1 — i.e. 1..N in descending order — and exactly one of them is
current, namely the one numbered N. -/
theorem c1_version_chain (db0 : DB) (u : UserId) (d : PromptCreate)
    (p : PromptRec) (db1 : DB) (ds : List PromptVersionCreate)
    (hwf : WFdb db0)
    (hok : PromptService.create_prompt db0 u d = .ok (p, db1)) :
    (PromptService.list_versions (runCreates db1 u p.id ds) u p.id).map
        (fun v => v.version_number)
      = (List.range' 1 (ds.length + 1)).reverse ∧
    ((PromptService.list_versions (runCreates db1 u p.id ds) u p.id).filter
        (fun v => v.is_current)).map (fun v => v.version_number)
      = [ds.length + 1] ∧
    (PromptService.list_versions (runCreates db1 u p.id ds) u p.id).length
      = ds.length + 1 := by
  obtain ⟨hinv1, hwf1⟩ := chainInv_create_prompt db0 u d p db1 hwf hok
  obtain ⟨hinvN, hwfN⟩ := chainInv_runCreates u p.id ds db1 1 hwf1 hinv1
  rw [show 1 + ds.length = ds.length + 1 from by omega] at hinvN
  obtain ⟨pN, hpN⟩ := Option.isSome_iff_exists.mp hinvN.1
  have hlist : PromptService.list_versions (runCreates db1 u p.id ds) u p.id
      = List.insertionSort PromptService.numberDesc
          (PromptService.versionsOf (runCreates db1 u p.id ds) p.id) := by
    unfold PromptService.list_versions
    rw [hpN]
  have hsort : List.insertionSort PromptService.numberDesc
      (PromptService.versionsOf (runCreates db1 u p.id ds) p.id)
      = (PromptService.versionsOf (runCreates db1 u p.id ds) p.id).reverse :=
    insertionSort_desc_of_ascending _ 1 (ds.length + 1) hinvN.2.1
  rw [hlist, hsort]
  refine ⟨?_, ?_, ?_⟩
  · rw [List.map_reverse, hinvN.2.1]
  · rw [List.filter_reverse]
    have hcongr : (PromptService.versionsOf (runCreates db1 u p.id ds)
          p.id).filter (fun v => v.is_current)
        = (PromptService.versionsOf (runCreates db1 u p.id ds) p.id).filter
          (fun v => decide (v.version_number = ds.length + 1)) :=
      List.filter_congr (fun v hv => hinvN.2.2 v hv)
    rw [hcongr, List.map_reverse, map_filter_number, hinvN.2.1]
    rw [range'_one_filter_last (ds.length + 1) (by omega)]
    rfl
  · rw [List.length_reverse]
    have hlen := congrArg List.length hinvN.2.1
    rw [List.length_map, List.length_range'] at hlen
    exact hlen

/-- The create request of the concrete chain scenario. -/
def fxInitCreate : PromptCreate :=
  { name := "a", description := none, location := "l", tags := [],
    project_id := none, content := "v1", commit_message := none,
    is_public := false }

/-- The one follow-up version of the concrete chain scenario. -/
def fxSecondCreate : PromptVersionCreate :=
  { content := "v2", commit_message := none }

/-- The store right after the initial create on the empty store. -/
def fxC1DB : DB :=
  { projects := [],
    prompts := [PromptService.newPromptRow emptyDB 7 fxInitCreate],
    versions := [PromptService.initialVersionRow emptyDB fxInitCreate],
    nextId := 2 }

/-- C1 witness: create on the empty store followed by one create_version
yields versions listed as [2, 1] with exactly version 2 current. -/
theorem c1_witness :
    WFdb emptyDB ∧
    PromptService.create_prompt emptyDB 7 fxInitCreate =
      .ok (PromptService.newPromptRow emptyDB 7 fxInitCreate, fxC1DB) ∧
    ((PromptService.list_versions (runCreates fxC1DB 7
        (PromptService.newPromptRow emptyDB 7 fxInitCreate).id
        [fxSecondCreate]) 7
        (PromptService.newPromptRow emptyDB 7 fxInitCreate).id).map
        (fun v => v.version_number)
      = (List.range' 1 ([fxSecondCreate].length + 1)).reverse ∧
    ((PromptService.list_versions (runCreates fxC1DB 7
        (PromptService.newPromptRow emptyDB 7 fxInitCreate).id
        [fxSecondCreate]) 7
        (PromptService.newPromptRow emptyDB 7 fxInitCreate).id).filter
        (fun v => v.is_current)).map (fun v => v.version_number)
      = [[fxSecondCreate].length + 1] ∧
    (PromptService.list_versions (runCreates fxC1DB 7
        (PromptService.newPromptRow emptyDB 7 fxInitCreate).id
        [fxSecondCreate]) 7
        (PromptService.newPromptRow emptyDB 7 fxInitCreate).id).length
      = [fxSecondCreate].length + 1) :=
  ⟨by unfold WFdb; decide, rfl,
   c1_version_chain emptyDB 7 fxInitCreate
     (PromptService.newPromptRow emptyDB 7 fxInitCreate) fxC1DB
     [fxSecondCreate] (by unfold WFdb; decide) rfl⟩

/-! Machinery for the reachable-state invariant: the five mutating operations
preserve at-most-one-current and pointer coherence. -/

/-- At most one version per prompt carries is_current. -/
def atMostOneCurrent (db : DB) : Prop :=
  ∀ p ∈ db.prompts,
    ((PromptService.versionsOf db p.id).filter (fun v => v.is_current)).length ≤ 1

/-- current_version_id, when set, references a version row of this very
prompt that carries is_current (with atMostOneCurrent, the unique one). -/
def pointerOk (db : DB) : Prop :=
  ∀ p ∈ db.prompts, ∀ vid, p.current_version_id = some vid →
    ∃ v ∈ db.versions,
      v.id = vid ∧ v.prompt_id = p.id ∧ v.is_current = true

/-- The inductive invariant carried across the operations. -/
def InvC2 (db : DB) : Prop := WFdb db ∧ atMostOneCurrent db ∧ pointerOk db

/-- States reachable from the empty store by the five mutating service
operations, each executed as one transaction (validation failures leave the
state unchanged). -/
inductive Reach : DB → Prop where
  | init : Reach emptyDB
  | create_prompt_step (db : DB) (u : UserId) (d : PromptCreate) :
      Reach db → Reach (PromptService.create_prompt_db db u d)
  | create_version_step (db : DB) (u : UserId) (pid : Nat)
      (d : PromptVersionCreate) :
      Reach db → Reach (PromptService.create_version db u pid d).2
  | restore_version_step (db : DB) (u : UserId) (pid n : Nat)
      (m : Option String) :
      Reach db → Reach (PromptService.restore_version db u pid n m).2
  | update_prompt_step (db : DB) (u : UserId) (pid : Nat) (d : PromptUpdate) :
      Reach db → Reach (PromptService.update_prompt_db db u pid d)
  | delete_prompt_step (db : DB) (u : UserId) (pid : Nat) :
      Reach db → Reach (PromptService.delete_prompt db u pid).2

theorem wf_create_version (db : DB) (u : UserId) (pid : Nat)
    (d : PromptVersionCreate) (hwf : WFdb db) :
    WFdb (PromptService.create_version db u pid d).2 := by
  cases hp : PromptService.get_prompt_by_id db u pid with
  | none =>
    have hid : (PromptService.create_version db u pid d).2 = db := by
      unfold PromptService.create_version
      rw [hp]
    rw [hid]
    exact hwf
  | some p =>
    have hstep : (PromptService.create_version db u pid d).2
        = PromptService.create_version_db db pid d := by
      unfold PromptService.create_version
      rw [hp]
    rw [hstep]
    have hpidlt : pid < db.nextId := by
      rw [PromptService.get_prompt_by_id] at hp
      have hmem := List.mem_of_find?_eq_some hp
      have hpred := List.find?_some hp
      simp only [Bool.and_eq_true, beq_iff_eq] at hpred
      have := hwf.1 p hmem
      omega
    refine ⟨?_, ?_, ?_⟩
    · simp only [PromptService.create_version_db]
      intro q hq
      obtain ⟨q0, hq0, rfl⟩ := List.mem_map.mp hq
      have h1 := hwf.1 q0 hq0
      by_cases hc : (q0.id == pid) = true <;> simp [hc] <;> omega
    · simp only [PromptService.create_version_db]
      intro v hv
      rw [List.mem_append] at hv
      cases hv with
      | inl h =>
        obtain ⟨w, hw, rfl⟩ := List.mem_map.mp h
        have h1 := hwf.2.1 w hw
        rw [PromptService.clearCurrent_id, PromptService.clearCurrent_prompt_id]
        omega
      | inr h =>
        have hveq : v = PromptService.newVersionRow db pid d := by simpa using h
        subst hveq
        refine ⟨?_, ?_⟩
        · show db.nextId < db.nextId + 1
          omega
        · show pid < db.nextId + 1
          omega
    · simp only [PromptService.create_version_db]
      intro pr hpr
      have := hwf.2.2 pr hpr
      omega

theorem invC2_create_prompt (db : DB) (u : UserId) (d : PromptCreate)
    (hinv : InvC2 db) : InvC2 (PromptService.create_prompt_db db u d) := by
  unfold PromptService.create_prompt_db
  cases hok : PromptService.create_prompt db u d with
  | error e => exact hinv
  | ok x =>
    obtain ⟨p, db'⟩ := x
    show InvC2 db'
    obtain ⟨hp, hdb⟩ := create_prompt_ok_eq db u d p db' hok
    have hchain := chainInv_create_prompt db u d p db' hinv.1 hok
    refine ⟨hchain.2, ?_, ?_⟩
    · intro q hq
      rw [hdb] at hq
      rw [List.mem_append] at hq
      cases hq with
      | inl h =>
        have hx := hinv.1.1 q h
        have hvers : PromptService.versionsOf db' q.id
            = PromptService.versionsOf db q.id := by
          rw [hdb, PromptService.versionsOf]
          show (db.versions ++ [PromptService.initialVersionRow db d]).filter _
            = _
          rw [List.filter_append]
          have h0 : ([PromptService.initialVersionRow db d].filter
              (fun v => v.prompt_id == q.id)) = [] := by
            have hne : (PromptService.initialVersionRow db d).prompt_id
                ≠ q.id := by
              show db.nextId ≠ q.id
              omega
            have hb : ((PromptService.initialVersionRow db d).prompt_id
                == q.id) = false := by
              simp [hne]
            simp [List.filter, hb]
          rw [h0, List.append_nil]
          rfl
        rw [hvers]
        exact hinv.2.1 q h
      | inr h =>
        have hq2 : q = PromptService.newPromptRow db u d := by simpa using h
        have hqid : q.id = p.id := by rw [hq2, hp]
        rw [hqid]
        have hlen : (PromptService.versionsOf db' p.id).length = 1 := by
          have h2 := congrArg List.length hchain.1.2.1
          rwa [List.length_map, List.length_range'] at h2
        calc ((PromptService.versionsOf db' p.id).filter
              (fun v => v.is_current)).length
            ≤ (PromptService.versionsOf db' p.id).length :=
              List.length_filter_le _ _
          _ = 1 := hlen
    · intro q hq vid hvid
      rw [hdb] at hq
      rw [List.mem_append] at hq
      cases hq with
      | inl h =>
        obtain ⟨v, hv, hv1, hv2, hv3⟩ := hinv.2.2 q h vid hvid
        refine ⟨v, ?_, hv1, hv2, hv3⟩
        rw [hdb]
        exact List.mem_append_left _ hv
      | inr h =>
        have hq2 : q = PromptService.newPromptRow db u d := by simpa using h
        have hvid2 : vid = db.nextId + 1 := by
          rw [hq2] at hvid
          simpa [PromptService.newPromptRow] using hvid.symm
        refine ⟨PromptService.initialVersionRow db d, ?_, ?_, ?_, rfl⟩
        · rw [hdb]
          exact List.mem_append_right _ (by simp)
        · rw [hvid2]
          rfl
        · rw [hq2]
          rfl

theorem versionsOf_create_version_db_self (db : DB) (pid : Nat)
    (d : PromptVersionCreate) :
    PromptService.versionsOf (PromptService.create_version_db db pid d) pid
      = (PromptService.versionsOf db pid).map (PromptService.clearCurrent pid)
        ++ [PromptService.newVersionRow db pid d] := by
  rw [PromptService.versionsOf]
  show ((db.versions.map (PromptService.clearCurrent pid)) ++ _).filter _ = _
  rw [List.filter_append]
  congr 1
  · exact filter_map_of_pred _ _
      (fun v => by rw [PromptService.clearCurrent_prompt_id]) _
  · have hpr : ((PromptService.newVersionRow db pid d).prompt_id == pid)
        = true := by
      simp [PromptService.newVersionRow]
    simp [List.filter, hpr]

theorem versionsOf_create_version_db_other (db : DB) (pid x : Nat)
    (d : PromptVersionCreate) (hne : x ≠ pid) :
    PromptService.versionsOf (PromptService.create_version_db db pid d) x
      = PromptService.versionsOf db x := by
  rw [PromptService.versionsOf]
  show ((db.versions.map (PromptService.clearCurrent pid)) ++ _).filter _ = _
  rw [List.filter_append]
  have h0 : [PromptService.newVersionRow db pid d].filter
      (fun v => v.prompt_id == x) = [] := by
    have hb : ((PromptService.newVersionRow db pid d).prompt_id == x)
        = false := by
      show (pid == x) = false
      simp [Ne.symm hne]
    simp [List.filter, hb]
  rw [h0, List.append_nil]
  rw [filter_map_of_pred _ _
    (fun v => by rw [PromptService.clearCurrent_prompt_id]) _]
  show (PromptService.versionsOf db x).map (PromptService.clearCurrent pid) = _
  have hfix : ∀ v ∈ PromptService.versionsOf db x,
      PromptService.clearCurrent pid v = v := by
    intro v hv
    have hvx : v.prompt_id = x := by
      have := (List.mem_filter.mp hv).2
      simpa using this
    rw [PromptService.clearCurrent, if_neg (by simp [hvx, hne])]
  calc (PromptService.versionsOf db x).map (PromptService.clearCurrent pid)
      = (PromptService.versionsOf db x).map id :=
        List.map_congr_left hfix
    _ = PromptService.versionsOf db x := List.map_id _

theorem invC2_create_version (db : DB) (u : UserId) (pid : Nat)
    (d : PromptVersionCreate) (hinv : InvC2 db) :
    InvC2 (PromptService.create_version db u pid d).2 := by
  cases hp : PromptService.get_prompt_by_id db u pid with
  | none =>
    have hid : (PromptService.create_version db u pid d).2 = db := by
      unfold PromptService.create_version
      rw [hp]
    rw [hid]
    exact hinv
  | some p =>
    have hstep : (PromptService.create_version db u pid d).2
        = PromptService.create_version_db db pid d := by
      unfold PromptService.create_version
      rw [hp]
    have hwf' : WFdb (PromptService.create_version db u pid d).2 :=
      wf_create_version db u pid d hinv.1
    rw [hstep] at hwf' ⊢
    refine ⟨hwf', ?_, ?_⟩
    · intro q hq
      simp only [PromptService.create_version_db, List.mem_map] at hq
      obtain ⟨q0, hq0, rfl⟩ := hq
      have hqid : (if q0.id == pid then
          { q0 with current_version_id := some (PromptService.newVersionRow db pid d).id }
          else q0).id = q0.id := by
        by_cases hc : (q0.id == pid) = true <;> simp [hc]
      rw [hqid]
      by_cases hx : q0.id = pid
      · rw [hx, versionsOf_create_version_db_self]
        rw [List.filter_append]
        have hmap0 : (((PromptService.versionsOf db pid).map
            (PromptService.clearCurrent pid)).filter
              (fun v => v.is_current)) = [] := by
          rw [List.filter_eq_nil_iff]
          intro v hv
          obtain ⟨w, hw, rfl⟩ := List.mem_map.mp hv
          have hwp : (w.prompt_id == pid) = true :=
            (List.mem_filter.mp hw).2
          rw [PromptService.clearCurrent]
          by_cases hcur : w.is_current = true
          · rw [if_pos (by simp [hwp, hcur])]
            simp
          · have hf : w.is_current = false := by simpa using hcur
            rw [if_neg (by simp [hf])]
            simp [hf]
        rw [hmap0, List.nil_append]
        have hcur1 : ((PromptService.newVersionRow db pid d).is_current)
            = true := rfl
        simp [List.filter, hcur1]
      · rw [versionsOf_create_version_db_other db pid q0.id d hx]
        exact hinv.2.1 q0 hq0
    · intro q hq vid hvid
      simp only [PromptService.create_version_db, List.mem_map] at hq
      obtain ⟨q0, hq0, rfl⟩ := hq
      by_cases hc : (q0.id == pid) = true
      · rw [if_pos hc] at hvid ⊢
        have hvid2 : vid = (PromptService.newVersionRow db pid d).id := by
          simpa using hvid.symm
        refine ⟨PromptService.newVersionRow db pid d, ?_, hvid2.symm, ?_, rfl⟩
        · simp only [PromptService.create_version_db]
          exact List.mem_append_right _ (by simp)
        · show pid = _
          have hq0pid : q0.id = pid := by simpa using hc
          simp [hq0pid]
      · rw [if_neg hc] at hvid ⊢
        obtain ⟨v, hv, h1, h2, h3⟩ := hinv.2.2 q0 hq0 vid hvid
        have hvpid : v.prompt_id ≠ pid := by
          rw [h2]
          intro hh
          exact hc (by simp [hh])
        have hveq : PromptService.clearCurrent pid v = v := by
          rw [PromptService.clearCurrent, if_neg (by simp [hvpid])]
        refine ⟨v, ?_, h1, h2, h3⟩
        simp only [PromptService.create_version_db]
        exact List.mem_append_left _ (List.mem_map.mpr ⟨v, hv, hveq⟩)

theorem invC2_restore_version (db : DB) (u : UserId) (pid n : Nat)
    (m : Option String) (hinv : InvC2 db) :
    InvC2 (PromptService.restore_version db u pid n m).2 := by
  rw [PromptService.restore_version]
  cases hv : PromptService.get_version db u pid n with
  | none => exact hinv
  | some target => exact invC2_create_version db u pid _ hinv

theorem invC2_update_prompt (db : DB) (u : UserId) (pid : Nat)
    (d : PromptUpdate) (hinv : InvC2 db) :
    InvC2 (PromptService.update_prompt_db db u pid d) := by
  unfold PromptService.update_prompt_db PromptService.update_prompt
  cases hp : PromptService.get_prompt_by_id db u pid with
  | none => exact hinv
  | some prompt =>
    show InvC2 (if _ then _ else if _ then _ else _ : _ × DB).2
    split
    · exact hinv
    · split
      · exact hinv
      · show InvC2 { db with prompts := db.prompts.map (fun p =>
          if p.id == pid then PromptService.applyPromptUpdate db d p else p) }
        have hid : ∀ q : PromptRec,
            (if q.id == pid then PromptService.applyPromptUpdate db d q
              else q).id = q.id := by
          intro q
          by_cases hc : (q.id == pid) = true <;>
            simp [hc, PromptService.applyPromptUpdate]
        have hcv : ∀ q : PromptRec,
            (if q.id == pid then PromptService.applyPromptUpdate db d q
              else q).current_version_id = q.current_version_id := by
          intro q
          by_cases hc : (q.id == pid) = true <;>
            simp [hc, PromptService.applyPromptUpdate]
        refine ⟨⟨?_, hinv.1.2.1, hinv.1.2.2⟩, ?_, ?_⟩
        · intro q hq
          obtain ⟨q0, hq0, rfl⟩ := List.mem_map.mp hq
          rw [hid q0]
          exact hinv.1.1 q0 hq0
        · intro q hq
          obtain ⟨q0, hq0, rfl⟩ := List.mem_map.mp hq
          rw [hid q0]
          exact hinv.2.1 q0 hq0
        · intro q hq vid hvid
          obtain ⟨q0, hq0, rfl⟩ := List.mem_map.mp hq
          rw [hcv q0] at hvid
          obtain ⟨v, hv, h1, h2, h3⟩ := hinv.2.2 q0 hq0 vid hvid
          rw [← hid q0] at h2
          exact ⟨v, hv, h1, h2, h3⟩

theorem invC2_delete_prompt (db : DB) (u : UserId) (pid : Nat)
    (hinv : InvC2 db) : InvC2 (PromptService.delete_prompt db u pid).2 := by
  unfold PromptService.delete_prompt
  cases hp : PromptService.get_prompt_by_id db u pid with
  | none => exact hinv
  | some p =>
    show InvC2 { db with
      prompts := db.prompts.filter (fun q => !(q.id == pid)),
      versions := db.versions.filter (fun v => !(v.prompt_id == pid)) }
    have hvers : ∀ x, x ≠ pid →
        PromptService.versionsOf { db with
          prompts := db.prompts.filter (fun q => !(q.id == pid)),
          versions := db.versions.filter (fun v => !(v.prompt_id == pid)) } x
        = PromptService.versionsOf db x := by
      intro x hx
      rw [PromptService.versionsOf]
      show (db.versions.filter (fun v => !(v.prompt_id == pid))).filter _ = _
      rw [List.filter_filter]
      apply List.filter_congr
      intro v _
      by_cases hvx : v.prompt_id = x
      · have h1 : (v.prompt_id == x) = true := by simp [hvx]
        have h2 : (!(v.prompt_id == pid)) = true := by simp [hvx, hx]
        simp [h1, h2]
      · have h1 : (v.prompt_id == x) = false := by simp [hvx]
        simp [h1]
    refine ⟨⟨?_, ?_, ?_⟩, ?_, ?_⟩
    · intro q hq
      exact hinv.1.1 q (List.mem_filter.mp hq).1
    · intro v hv
      exact hinv.1.2.1 v (List.mem_filter.mp hv).1
    · intro pr hpr
      exact hinv.1.2.2 pr hpr
    · intro q hq
      obtain ⟨hq0, hqne⟩ := List.mem_filter.mp hq
      have hne : q.id ≠ pid := by simpa using hqne
      rw [hvers q.id hne]
      exact hinv.2.1 q hq0
    · intro q hq vid hvid
      obtain ⟨hq0, hqne⟩ := List.mem_filter.mp hq
      have hne : q.id ≠ pid := by simpa using hqne
      obtain ⟨v, hv, h1, h2, h3⟩ := hinv.2.2 q hq0 vid hvid
      refine ⟨v, ?_, h1, h2, h3⟩
      refine List.mem_filter.mpr ⟨hv, ?_⟩
      have : v.prompt_id ≠ pid := by rw [h2]; exact hne
      simp [this]

theorem invC2_reach : ∀ db, Reach db → InvC2 db := by
  intro db h
  induction h with
  | init =>
    refine ⟨⟨?_, ?_, ?_⟩, ?_, ?_⟩ <;> intro x hx <;> cases hx
  | create_prompt_step db u d _ ih => exact invC2_create_prompt db u d ih
  | create_version_step db u pid d _ ih => exact invC2_create_version db u pid d ih
  | restore_version_step db u pid n m _ ih =>
    exact invC2_restore_version db u pid n m ih
  | update_prompt_step db u pid d _ ih => exact invC2_update_prompt db u pid d ih
  | delete_prompt_step db u pid _ ih => exact invC2_delete_prompt db u pid ih

/-- C2: every state reachable by create_prompt, create_version,
restore_version, update_prompt and delete_prompt has at most one current
version per prompt, and a current_version_id that, when set, references a
version row of that same prompt carrying is_current = true (by the
uniqueness conjunct, the current one). Moreover a successful create_version
performs the flip, the insert and the repoint together in its single
returned state: every previously current version of the prompt reappears
with is_current cleared and its other columns intact, the returned version
is present and current, and the prompt row points at it — no intermediate
state exists in the model, matching the one-transaction contract. -/
theorem c2_reachable_invariant :
    (∀ db, Reach db → atMostOneCurrent db ∧ pointerOk db) ∧
    (∀ (db : DB) (u : UserId) (pid : Nat) (d : PromptVersionCreate)
        (v : VersionRec),
      (PromptService.create_version db u pid d).1 = some v →
      v.is_current = true ∧
      v ∈ (PromptService.create_version db u pid d).2.versions ∧
      (∀ w ∈ db.versions, w.prompt_id = pid → w.is_current = true →
        ∃ w' ∈ (PromptService.create_version db u pid d).2.versions,
          w'.id = w.id ∧ w'.is_current = false ∧
          w'.version_number = w.version_number ∧ w'.content = w.content) ∧
      (∀ q ∈ (PromptService.create_version db u pid d).2.prompts,
        q.id = pid → q.current_version_id = some v.id)) := by
  constructor
  · intro db h
    exact ⟨(invC2_reach db h).2.1, (invC2_reach db h).2.2⟩
  · intro db u pid d v hv
    cases hp : PromptService.get_prompt_by_id db u pid with
    | none =>
      rw [show (PromptService.create_version db u pid d).1 = none from by
        unfold PromptService.create_version; rw [hp]] at hv
      cases hv
    | some p =>
      have h1 : (PromptService.create_version db u pid d).1
          = some (PromptService.newVersionRow db pid d) := by
        unfold PromptService.create_version
        rw [hp]
      have h2 : (PromptService.create_version db u pid d).2
          = PromptService.create_version_db db pid d := by
        unfold PromptService.create_version
        rw [hp]
      rw [h1] at hv
      have hveq : v = PromptService.newVersionRow db pid d := by
        simpa using hv.symm
      subst hveq
      rw [h2]
      refine ⟨rfl, ?_, ?_, ?_⟩
      · simp only [PromptService.create_version_db]
        exact List.mem_append_right _ (by simp)
      · intro w hw hwp hwc
        refine ⟨{ w with is_current := false }, ?_, rfl, rfl, rfl, rfl⟩
        simp only [PromptService.create_version_db]
        refine List.mem_append_left _ ?_
        refine List.mem_map.mpr ⟨w, hw, ?_⟩
        rw [PromptService.clearCurrent, if_pos (by simp [hwp, hwc])]
      · intro q hq hqid
        simp only [PromptService.create_version_db, List.mem_map] at hq
        obtain ⟨q0, hq0, rfl⟩ := hq
        by_cases hc : (q0.id == pid) = true
        · rw [if_pos hc]
        · rw [if_neg hc] at hqid ⊢
          exact absurd (by simp [hqid] : (q0.id == pid) = true) hc

/-- C2 witness: the concrete two-row state (create on the empty store) is
reachable, the invariant holds there, and the flip facts hold at a concrete
create_version call on it. -/
theorem c2_witness :
    Reach fxC1DB ∧
    (atMostOneCurrent fxC1DB ∧ pointerOk fxC1DB) ∧
    ((PromptService.create_version fxC1DB 7 0 fxSecondCreate).1
        = some (PromptService.newVersionRow fxC1DB 0 fxSecondCreate) ∧
      (PromptService.newVersionRow fxC1DB 0 fxSecondCreate).is_current
        = true ∧
      PromptService.newVersionRow fxC1DB 0 fxSecondCreate
        ∈ (PromptService.create_version fxC1DB 7 0 fxSecondCreate).2.versions) := by
  have hreach : Reach fxC1DB := by
    have h := Reach.create_prompt_step emptyDB 7 fxInitCreate Reach.init
    have he : PromptService.create_prompt_db emptyDB 7 fxInitCreate
        = fxC1DB := rfl
    rwa [he] at h
  refine ⟨hreach, c2_reachable_invariant.1 fxC1DB hreach, rfl, ?_, ?_⟩
  · exact (c2_reachable_invariant.2 fxC1DB 7 0 fxSecondCreate _ rfl).1
  · exact (c2_reachable_invariant.2 fxC1DB 7 0 fxSecondCreate _ rfl).2.1
